import Mathlib

/-!
A shallow embedding of the `rfielding/bc` proof-of-concept ledger
(`src/currency/dbtest.go` together with the shared types of the
`currency` package) and of the commutative set accumulator
(`src/main.go`), with theorems checking the specification's claims.

Modelling conventions:
* Go `int64` fields (`Amount`, `Nonce`, `ChainLength`, shard and record
  ids) are modelled as `Int`, except that the two running totals of
  `verifyTransaction` — the flow zero-sum check and the global
  account-sum self-check — accumulate with explicit two's-complement
  wraparound (`wrap64`), because their overflow is observable through
  the public API (see the C5 counterexample).
* Public keys are identified with their canonical serialization
  (`NewPublicKeyString` is an injective JSON encoding in Go), so both
  are modelled by a single `Nat`.
* SHA-256 over the canonical serialization of a receipt header is
  modelled as a collision-free constructor: a `HashPointer` is either
  the empty string (the zero value, used by the genesis receipt) or the
  formal hash of the header's fields.
* An ECDSA signature is modelled as an ideal certificate recording the
  signer's key and the signed message (`flowHash` covers the serialized
  flow list and the signoff nonce), and `ecdsa.Verify` succeeds exactly
  on matching certificates.
* Go maps are modelled as association lists with unique keys
  (first-match lookup, in-place replacement on insert).
* A Go `panic` (nil-pointer dereference, out-of-range index, or an
  explicit `panic(err)`) and a non-terminating loop are modelled by
  `Option`: `none` means the operation produces no resulting state.
-/

namespace BC

/-- First-match lookup in an association list (a Go map read). -/
def alookup {κ α : Type} [DecidableEq κ] : List (κ × α) → κ → Option α
  | [], _ => none
  | (k0, v) :: rest, k => if k0 = k then some v else alookup rest k

/-- In-place replacement, or append when the key is new (a Go map write). -/
def ainsert {κ α : Type} [DecidableEq κ] : List (κ × α) → κ → α → List (κ × α)
  | [], k, v => [(k, v)]
  | (k0, v0) :: rest, k, v =>
    if k0 = k then (k0, v) :: rest else (k0, v0) :: ainsert rest k v

/-- Removal of a key (Go `delete`). -/
def aerase {κ α : Type} [DecidableEq κ] : List (κ × α) → κ → List (κ × α)
  | [], _ => []
  | (k0, v0) :: rest, k =>
    if k0 = k then rest else (k0, v0) :: aerase rest k

/-- Update the value stored at a key, when present.  In the Go code the
corresponding writes (`db.Accounts[pks].Amount += ...`) are only reached
after the key has been materialized, so the absent case never occurs
there. -/
def aupdate {κ α : Type} [DecidableEq κ] : List (κ × α) → κ → (α → α) → List (κ × α)
  | [], _, _ => []
  | (k0, v0) :: rest, k, g =>
    if k0 = k then (k0, g v0) :: rest else (k0, v0) :: aupdate rest k g

/-! ## Currency package data model (`src/currency`) -/

/-- `Flow`: one input or output line of a transaction. -/
structure Flow where
  amount : Int
  publicKey : Nat
deriving DecidableEq

/-- An ideal ECDSA signature: the certificate records the public key of
the signer and the message that `flowHash` covers (the serialized flow
list and the signoff nonce). -/
structure Signature where
  signerKey : Nat
  signedFlows : List Flow
  signedNonce : Int
deriving DecidableEq

/-- `Signoff`: per-flow nonce and optional signature (`*Signature` in Go,
`nil` when absent). -/
structure Signoff where
  nonce : Int
  signature : Option Signature
deriving DecidableEq

/-- `Transaction`: parallel arrays of flows and signoffs. -/
structure Transaction where
  flows : List Flow
  signoffs : List Signoff
deriving DecidableEq

/-- A hash pointer: the hex SHA-256 of a serialized receipt header,
modelled as a collision-free formal hash of the header's fields
(`transaction`, `chainLength`, `previous`), or the empty string
(`HashPointer("")`, the zero value). -/
inductive HashPointer where
  | empty : HashPointer
  | hashOf (transaction : Transaction) (chainLength : Int) (previous : HashPointer) : HashPointer
deriving DecidableEq

/-- `Hashed`: the hashed receipt header. -/
structure Hashed where
  transaction : Transaction
  chainLength : Int
  previous : HashPointer
deriving DecidableEq

/-- `Receipt.HashPointer()`: hash of the serialized header. -/
def Hashed.ptr (h : Hashed) : HashPointer :=
  .hashOf h.transaction h.chainLength h.previous

/-- `Receipt`: header, its hash, and the mutable child index. -/
structure Receipt where
  hashed : Hashed
  this : HashPointer
  next : List HashPointer
deriving DecidableEq

/-- `Account`: balance and replay-protection nonce for one public key. -/
structure Account where
  publicKey : Nat
  amount : Int
  nonce : Int
deriving DecidableEq

/-- The `ErrTransaction` values of `src/currency/db.go`. -/
inductive Err where
  | malformed
  | genesis
  | belowZero
  | sigFail
  | notFound
  | wait
  | nonZeroSum
  | replay
  | totalNonZeroSum
deriving DecidableEq

/-- `ecdsa.Verify` on the ideal signatures: the certificate must have
been produced by the key of the flow over the flow hash
`(serialize(Flows), Signoffs[i].Nonce)`. -/
def ecdsaVerify (pk : Nat) (allFlows : List Flow) (nonce : Int) (sig : Signature) : Bool :=
  decide (sig.signerKey = pk ∧ sig.signedFlows = allFlows ∧ sig.signedNonce = nonce)

/-- The loop body of `Transaction.Verify`: positive flows are skipped;
for the rest the Go code dereferences `t.Signoffs[i].Signature.X`
unconditionally, so an absent signature is a nil-pointer dereference
(`none`). -/
def verifyLoop (allFlows : List Flow) : List Flow → List Signoff → Option Bool
  | f :: fs, s :: ss =>
    if f.amount > 0 then verifyLoop allFlows fs ss
    else
      match s.signature with
      | none => none
      | some sig =>
        if ecdsaVerify f.publicKey allFlows s.nonce sig then
          verifyLoop allFlows fs ss
        else
          some false
  | _, _ => some true

/-- `Transaction.Verify` (`src/currency`, the transaction model file):
`some b` is a normal return of `b`; `none` is a panic. -/
def Transaction.Verify (t : Transaction) : Option Bool :=
  if t.signoffs.length ≠ t.flows.length then some false
  else verifyLoop t.flows t.flows t.signoffs

/-! ## The ledger state (`DbTest`) -/

/-- The `DbTest` ledger state.  `Current` and `GenesisReceipt` are
pointers into the receipt map in Go; every operation that moves the
cursor takes it from (or stores it into) `Receipts`, so the cursor is
modelled by the hash key of the receipt it points at. -/
structure DbTest where
  isBank : List Nat
  accounts : List (Nat × Account)
  receipts : List (HashPointer × Receipt)
  current : HashPointer
  highestChainLength : Int
  highestReceipts : List Receipt
deriving DecidableEq

/-- The genesis receipt: the zero value `&Receipt{}`. -/
def genesisReceipt : Receipt :=
  { hashed := { transaction := ⟨[], []⟩, chainLength := 0, previous := .empty }
    this := .empty
    next := [] }

/-- `NewDBTest`. -/
def newDBTest : DbTest :=
  { isBank := []
    accounts := []
    receipts := [(HashPointer.empty, genesisReceipt)]
    current := .empty
    highestChainLength := 0
    highestReceipts := [] }

/-- `DbTest.This()`: dereference the cursor.  In every state produced by
the operations the cursor's key is present in the receipt map. -/
def This (db : DbTest) : Receipt :=
  (alookup db.receipts db.current).getD genesisReceipt

/-- `DbTest.CanPopReceipt()`. -/
def canPop (db : DbTest) : Bool :=
  decide ((This db).hashed.chainLength > 0)

/-- `DbTest.AsBank(k)`. -/
def asBank (db : DbTest) (k : Nat) : DbTest :=
  { db with isBank := db.isBank ++ [k] }

/-- `nonceDiff`: `0` when validating before apply, `1` after. -/
def nonceDiff (isBeforeApply : Bool) : Int :=
  if isBeforeApply then 0 else 1

/-- The account used for a flow: the stored account, or a fresh zero
account materialized for the flow's key. -/
def acctOf (db : DbTest) (pks : Nat) : Account :=
  (alookup db.accounts pks).getD ⟨pks, 0, 0⟩

/-- The per-flow validation performed by `verifyTransaction` for every
flow with non-positive amount: balance bound, then the two nonce
comparisons. -/
def flowCheck (db : DbTest) (diff : Int) (f : Flow) (s : Signoff) : Option Err :=
  if f.amount > 0 then none
  else
    let a := acctOf db f.publicKey
    if a.amount + f.amount < 0 ∧ db.isBank.contains f.publicKey = false then some .belowZero
    else if a.nonce < s.nonce + diff then some .wait
    else if a.nonce > s.nonce + diff then some .replay
    else none

/-- The nonce/balance loop of `verifyTransaction`: the first failing
flow determines the error. -/
def flowsLoop (db : DbTest) (diff : Int) : List Flow → List Signoff → Option Err
  | f :: fs, s :: ss =>
    match flowCheck db diff f s with
    | some e => some e
    | none => flowsLoop db diff fs ss
  | _, _ => none

/-- Two's-complement wraparound to the `int64` range.  Go's running
totals (`total -= txn.Flows[i].Amount`, `total += av.Amount`) are
`int64` additions that overflow silently. -/
def wrap64 (z : Int) : Int :=
  (z + 2 ^ 63) % 2 ^ 64 - 2 ^ 63

/-- Sum of `Amount` over the account table, accumulated in wrapping
`int64` arithmetic exactly as the Go self-check computes it.  (The
random order of Go's map iteration is immaterial: the wrapped fold
equals the wrap of the exact sum for every order.) -/
def sumAmounts (m : List (Nat × Account)) : Int :=
  m.foldl (fun t kv => wrap64 (t + kv.2.amount)) 0

/-- `DbTest.verifyTransaction`.  The outer `Option` is panic propagation
(from `Transaction.Verify`); the inner `Option Err` is the returned
`ErrTransaction` (`none` = nil). -/
def verifyTransaction (db : DbTest) (txn : Transaction) (isBeforeApply : Bool) :
    Option (Option Err) :=
  if txn.flows.length ≠ txn.signoffs.length then some (some .malformed)
  else
    match txn.Verify with
    | none => none
    | some false => some (some .sigFail)
    | some true =>
      if txn.flows.foldl (fun t f => wrap64 (t - f.amount)) 0 ≠ 0 then some (some .nonZeroSum)
      else
        match flowsLoop db (nonceDiff isBeforeApply) txn.flows txn.signoffs with
        | some e => some (some e)
        | none =>
          if sumAmounts db.accounts ≠ 0 then some (some .totalNonZeroSum)
          else some none

/-! ## Ledger operations -/

/-- The first loop of `PushTransaction`: materialize an account for
every flow with non-positive amount. -/
def matLoop (acc : List (Nat × Account)) : List Flow → List (Nat × Account)
  | [] => acc
  | f :: fs =>
    if f.amount > 0 then matLoop acc fs
    else
      let a := (alookup acc f.publicKey).getD ⟨f.publicKey, 0, 0⟩
      matLoop (ainsert acc f.publicKey a) fs

/-- Materialize an account for a key when none is stored yet
(`if a == nil { db.Accounts[pks] = &Account{...} }`). -/
def ensureAcct (acc : List (Nat × Account)) (pk : Nat) : List (Nat × Account) :=
  match alookup acc pk with
  | none => ainsert acc pk ⟨pk, 0, 0⟩
  | some _ => acc

/-- One iteration of the second loop of `PushTransaction`: materialize
the account if still absent, bump the nonce for an outflow, and add the
flow amount. -/
def applyStep (acc : List (Nat × Account)) (f : Flow) : List (Nat × Account) :=
  let acc1 := ensureAcct acc f.publicKey
  let acc2 :=
    if f.amount < 0 then aupdate acc1 f.publicKey (fun a => { a with nonce := a.nonce + 1 })
    else acc1
  aupdate acc2 f.publicKey (fun a => { a with amount := a.amount + f.amount })

/-- The second loop of `PushTransaction`. -/
def applyLoop (acc : List (Nat × Account)) : List Flow → List (Nat × Account)
  | [] => acc
  | f :: fs => applyLoop (applyStep acc f) fs

/-- The undo loop of `PopReceipt`: `Amount -= Flow.Amount`, and
`Nonce--` for outflows.  The Go code dereferences the stored account
pointer, so an absent account is a nil-pointer dereference (`none`). -/
def undoLoop (acc : List (Nat × Account)) : List Flow → Option (List (Nat × Account))
  | [] => some acc
  | f :: fs =>
    match alookup acc f.publicKey with
    | none => none
    | some a =>
      let a' : Account :=
        { a with amount := a.amount - f.amount
                 nonce := if f.amount < 0 then a.nonce - 1 else a.nonce }
      undoLoop (ainsert acc f.publicKey a') fs

/-- The redo loop of `PushReceipt`: `Amount += Flow.Amount`, and
`Nonce++` for outflows; an absent account is a nil-pointer dereference. -/
def redoLoop (acc : List (Nat × Account)) : List Flow → Option (List (Nat × Account))
  | [] => some acc
  | f :: fs =>
    match alookup acc f.publicKey with
    | none => none
    | some a =>
      let a' : Account :=
        { a with amount := a.amount + f.amount
                 nonce := if f.amount < 0 then a.nonce + 1 else a.nonce }
      redoLoop (ainsert acc f.publicKey a') fs

/-- `DbTest.PushTransaction`.  `none` is a panic (a failed post-apply
self-check is `panic(err)` in Go); otherwise the returned
`ErrTransaction` and the resulting state. -/
def pushTransaction (db : DbTest) (txn : Transaction) : Option (Option Err × DbTest) :=
  let prevr := This db
  match verifyTransaction db txn true with
  | none => none
  | some (some e) => some (some e, db)
  | some none =>
    let acc1 := matLoop db.accounts txn.flows
    let acc2 := applyLoop acc1 txn.flows
    let rHashed : Hashed := ⟨txn, prevr.hashed.chainLength + 1, prevr.this⟩
    let r : Receipt := ⟨rHashed, rHashed.ptr, []⟩
    let rs1 := ainsert db.receipts r.this r
    let rs2 :=
      match alookup rs1 prevr.this with
      | some pr => ainsert rs1 prevr.this { pr with next := pr.next ++ [r.this] }
      | none => rs1
    let db1 : DbTest := { db with accounts := acc2, receipts := rs2, current := r.this }
    let db2 : DbTest :=
      if r.hashed.chainLength = db.highestChainLength then
        { db1 with highestReceipts := db.highestReceipts ++ [r] }
      else if r.hashed.chainLength > db.highestChainLength then
        { db1 with highestChainLength := r.hashed.chainLength, highestReceipts := [r] }
      else db1
    match verifyTransaction db2 txn false with
    | none => none
    | some (some _) => none
    | some none => some (none, db2)

/-- `DbTest.PopReceipt`.  `none` is a panic; otherwise the returned
boolean and the resulting state. -/
def popReceipt (db : DbTest) : Option (Bool × DbTest) :=
  if (This db).hashed.chainLength = 0 then some (false, db)
  else
    let undo := This db
    let txn := undo.hashed.transaction
    match alookup db.receipts undo.hashed.previous with
    | none => some (false, db)
    | some r =>
      match undoLoop db.accounts txn.flows with
      | none => none
      | some acc =>
        let db' : DbTest := { db with accounts := acc, current := undo.hashed.previous }
        match verifyTransaction db' r.hashed.transaction false with
        | none => none
        | some (some _) => none
        | some none => some (true, db')

/-- `DbTest.peekNext`: dereference every child of the current receipt;
a missing child is a nil-pointer dereference. -/
def collectNext (rs : List (HashPointer × Receipt)) : List HashPointer → Option (List Receipt)
  | [] => some []
  | k :: ks =>
    match alookup rs k with
    | none => none
    | some r =>
      match collectNext rs ks with
      | none => none
      | some l => some (r :: l)

/-- `DbTest.PushReceipt(i)`.  The Go bound check is `len(redos) < i`,
so `i = len(redos)` (and any negative `i`) reaches the out-of-range
index `redos[i]`, a panic. -/
def pushReceipt (db : DbTest) (i : Int) : Option (Option Err × DbTest) :=
  match collectNext db.receipts (This db).next with
  | none => none
  | some redos =>
    if (redos.length : Int) < i then some (some .notFound, db)
    else
      match (if 0 ≤ i then redos.get? i.toNat else none) with
      | none => none
      | some rc =>
        let txn := rc.hashed.transaction
        match redoLoop db.accounts txn.flows with
        | none => none
        | some acc =>
          let db' : DbTest := { db with accounts := acc, current := rc.hashed.ptr }
          match verifyTransaction db' txn false with
          | none => none
          | some (some _) => none
          | some none => some (none, db')

/-- The index scan used by `GotoReceipt`: the first position of the
target among the children, `0` when absent (the loop's default). -/
def scanIdx (nexts : List HashPointer) (target : HashPointer) : Nat :=
  match nexts.findIdx? (fun x => decide (x = target)) with
  | some i => i
  | none => 0

/-- Phase 1 of `GotoReceipt`: pop while deeper than the target.  The
fuel bounds the loop; exhausting it models divergence. -/
def phase1 : Nat → DbTest → Receipt → Option DbTest
  | 0, db, rcpt =>
    if (This db).hashed.chainLength > rcpt.hashed.chainLength ∧ canPop db = true then none
    else some db
  | fuel + 1, db, rcpt =>
    if (This db).hashed.chainLength > rcpt.hashed.chainLength ∧ canPop db = true then
      match popReceipt db with
      | none => none
      | some (_, db') => phase1 fuel db' rcpt
    else some db

/-- Phase 2 of `GotoReceipt`: walk the target's ancestry down to the
cursor's chain length, recording child indices.  Reads the receipt map
only; a missing parent, an empty child list, or a failed recheck of the
recorded index is a panic. -/
def phase2 : Nat → DbTest → Receipt → List Nat → Option (List Nat × Receipt)
  | 0, db, there, st =>
    if (This db).hashed.chainLength < there.hashed.chainLength then none
    else some (st, there)
  | fuel + 1, db, there, st =>
    if (This db).hashed.chainLength < there.hashed.chainLength then
      match alookup db.receipts there.hashed.previous with
      | none => none
      | some parent =>
        let idx := scanIdx parent.next there.this
        match parent.next.get? idx with
        | none => none
        | some nk =>
          if nk ≠ there.this then none
          else phase2 fuel db parent (idx :: st)
    else some (st, there)

/-- Phase 3 of `GotoReceipt`: pop the cursor and step the target-side
walker in lockstep until they meet. -/
def phase3 : Nat → DbTest → Receipt → List Nat → Option (DbTest × Receipt × List Nat)
  | 0, db, there, st =>
    if (This db).this ≠ there.this ∧ canPop db = true then none
    else some (db, there, st)
  | fuel + 1, db, there, st =>
    if (This db).this ≠ there.this ∧ canPop db = true then
      match alookup db.receipts there.hashed.previous with
      | none => none
      | some parent =>
        let idx := scanIdx parent.next there.this
        match popReceipt db with
        | none => none
        | some (_, db') => phase3 fuel db' parent (idx :: st)
    else some (db, there, st)

/-- Phase 4 of `GotoReceipt`: replay the recorded child indices
(`PushReceipt` errors are ignored, as in the Go loop). -/
def phase4 : Nat → DbTest → List Nat → Option DbTest
  | _, db, [] => some db
  | 0, _, _ :: _ => none
  | fuel + 1, db, idx :: st =>
    match pushReceipt db (idx : Int) with
    | none => none
    | some (_, db') => phase4 fuel db' st

/-- `DbTest.GotoReceipt(rcpt)`.  The fuel is generous enough for every
navigation through a well-formed receipt tree. -/
def gotoReceipt (db : DbTest) (rcpt : Receipt) : Option (Bool × DbTest) :=
  let fuel := 2 * db.receipts.length + 2
  match phase1 fuel db rcpt with
  | none => none
  | some db1 =>
    if (This db1).this = rcpt.this then some (true, db1)
    else
      match phase2 fuel db1 rcpt [] with
      | none => none
      | some (st, there) =>
        if (This db1).this = rcpt.this then some (true, db1)
        else if (This db1).hashed.chainLength ≠ there.hashed.chainLength then none
        else
          match phase3 fuel db1 there st with
          | none => none
          | some (db3, there3, st3) =>
            match phase4 fuel db3 st3 with
            | none => none
            | some db4 => some (decide ((This db4).this = there3.this), db4)

/-! ## Commutative accumulator (`src/main.go`)

The subgroup of the curve generated by the base point `G` is cyclic, so
a point accumulated from `ScalarBaseMult` calls is modelled by its
discrete logarithm: an `Int`, with point addition as `+` and the
`y`-negation of a point as negation.  `ScalarBaseMult(nil)` (the value
of the package-level `ZeroPoint` allocation) is the identity, `0`.

`Db.State` stores `*Point` values in Go; every shard is initialized to
the single shared `ZeroPoint` allocation and `sum` mutates the pointee
in place.  The model makes the pointer structure explicit: `heap` holds
the allocated points (only the `ZeroPoint` cell is ever allocated) and
`state` maps a shard to a heap index. -/

/-- An elliptic curve point in the subgroup generated by `G`,
represented by its discrete logarithm. -/
abbrev Point := Int

/-- `curve.Add`. -/
def pointAdd (p q : Point) : Point := p + q

/-- `curve.ScalarBaseMult(h)`. -/
def scalarBaseMult (h : Int) : Point := h

/-- A reference `{Shard, Id}` inside a record. -/
structure Reference where
  shard : Int
  id : Int
deriving DecidableEq

/-- `DataRecord`. -/
structure DataRecord where
  shard : Int
  id : Int
  ttl : Int
  refs : List (String × Reference)
  name : String
  strings : List (String × String)
deriving DecidableEq

/-- An injective numeric code for a string (part of the modelled record
serialization). -/
def strCode (s : String) : Int :=
  s.data.foldl (fun a c => a * 1114112 + ((c.toNat : Int) + 1)) 1

/-- The record hash used by the accumulator.  The Go code computes
`sha256.New().Sum(json)`, which appends the digest of the empty input
to the serialized record, so it is an injective encoding of the record,
modelled by a numeric encoding of the fields. -/
def hashRec (r : DataRecord) : Int :=
  ((((strCode r.name * 2 ^ 64 + r.shard) * 2 ^ 64 + r.id) * 2 ^ 64 + r.ttl) * 2 ^ 64 +
      r.refs.foldl (fun a kr => a * 2 ^ 64 + strCode kr.1 * 2 ^ 32 + kr.2.shard * 2 ^ 16 + kr.2.id) 1) *
      2 ^ 64 +
    r.strings.foldl (fun a kv => a * 2 ^ 64 + strCode kv.1 * 2 ^ 32 + strCode kv.2) 1

/-- Accumulator errors (`fmt.Errorf` strings in Go). -/
inductive AccErr where
  | alreadyExists
  | notPresent
  | identityMismatch
deriving DecidableEq

/-- The accumulator `Db` (key pair omitted: signing is not modelled). -/
structure AccDb where
  shard : Int
  data : List (Int × List (Int × DataRecord))
  state : List (Int × Nat)
  heap : List Point
deriving DecidableEq

/-- The heap index of the package-level `ZeroPoint` allocation. -/
def zeroPointPtr : Nat := 0

/-- `NewDB(shard)`: the heap holds the one `ZeroPoint` cell, whose
initial value is `ScalarBaseMult(nil) = 0`. -/
def newAccDb (shard : Int) : AccDb :=
  { shard := shard, data := [], state := [], heap := [scalarBaseMult 0] }

/-- `Db.sum(shard, h, neg)`: read the shard's point through its pointer,
add `ScalarBaseMult(h)` (negated when removing), and write the pointee
back.  A shard with no point is a nil-pointer dereference. -/
def accSum (db : AccDb) (shard : Int) (h : Int) (neg : Bool) : Option AccDb :=
  let p1 := scalarBaseMult h
  let p1n := if neg then -p1 else p1
  match alookup db.state shard with
  | none => none
  | some ptr =>
    match db.heap.get? ptr with
    | none => none
    | some p => some { db with heap := db.heap.set ptr (pointAdd p p1n) }

/-- `Db.Insert(v)`. -/
def accInsert (db : AccDb) (v : DataRecord) : Option (Option AccErr × AccDb) :=
  let shard := v.shard
  let id := v.id
  let db1 :=
    if (alookup db.data shard).isNone then { db with data := ainsert db.data shard [] } else db
  let db2 :=
    if (alookup db1.state shard).isNone then
      { db1 with state := ainsert db1.state shard zeroPointPtr }
    else db1
  match alookup ((alookup db2.data shard).getD []) id with
  | some _ => some (some .alreadyExists, db2)
  | none =>
    let h := hashRec v
    match accSum db2 shard h false with
    | none => none
    | some db3 =>
      some (none, { db3 with
        data := ainsert db3.data shard (ainsert ((alookup db3.data shard).getD []) id v) })

/-- `Db.Remove(vToRemove)`. -/
def accRemove (db : AccDb) (vToRemove : DataRecord) : Option (Option AccErr × AccDb) :=
  let id := vToRemove.id
  let shard := vToRemove.shard
  let db1 :=
    if (alookup db.data shard).isNone then { db with data := ainsert db.data shard [] } else db
  let db2 :=
    if (alookup db1.state shard).isNone then
      { db1 with state := ainsert db1.state shard zeroPointPtr }
    else db1
  match alookup ((alookup db2.data shard).getD []) id with
  | none => some (some .notPresent, db2)
  | some v =>
    if hashRec vToRemove ≠ hashRec v then some (some .identityMismatch, db2)
    else
      match accSum db2 shard (hashRec v) true with
      | none => none
      | some db3 =>
        let m := aerase ((alookup db3.data shard).getD []) id
        let d := if m.isEmpty then aerase db3.data shard else ainsert db3.data shard m
        some (none, { db3 with data := d })

/-- The string form of a point: `hex(X),hex(Y)`.  The identity is the
affine pair `(0, 0)`, whose big-integer byte strings are empty, giving
`","`; any other accumulated point is rendered injectively from its
discrete logarithm. -/
def renderPoint (p : Point) : String :=
  if p = 0 then "," else toString p ++ "," ++ toString p

/-- `Db.Checksum(shard)`: `","` when the shard has no point, otherwise
the rendered pointee. -/
def accChecksum (db : AccDb) (shard : Int) : String :=
  match alookup db.state shard with
  | none => ","
  | some ptr => renderPoint ((db.heap.get? ptr).getD 0)

/-! ## Concrete instances used by the theorems -/

/-- The empty transaction: no flows, no signoffs.  It is accepted by
`PushTransaction` (all checks are vacuous). -/
def emptyTxn : Transaction := ⟨[], []⟩

/-- State after pushing the empty transaction onto a fresh ledger. -/
def pushedDb : DbTest := ((pushTransaction newDBTest emptyTxn).getD (none, newDBTest)).2

/-- The receipt created by that push. -/
def pushedTarget : Receipt := This pushedDb

/-- State after popping back to genesis. -/
def poppedDb : DbTest := ((popReceipt pushedDb).getD (false, pushedDb)).2

/-- A fresh ledger whose key `0` is marked as a bank. -/
def bankDb : DbTest := asBank newDBTest 0

/-- A mint: `-5` from the bank key `0`, `+5` to key `1`, with a valid
signature on the outflow. -/
def mintTxn : Transaction :=
  ⟨[⟨-5, 0⟩, ⟨5, 1⟩], [⟨0, some ⟨0, [⟨-5, 0⟩, ⟨5, 1⟩], 0⟩⟩, ⟨0, none⟩]⟩

/-- State after pushing the mint onto `bankDb`. -/
def mintedDb : DbTest := ((pushTransaction bankDb mintTxn).getD (none, bankDb)).2

/-- State after popping the mint again. -/
def unmintedDb : DbTest := ((popReceipt mintedDb).getD (false, mintedDb)).2

/-- A zero-sum, correctly signed transaction whose outflow would take
the (non-bank, empty) account of key `0` below zero while its signoff
nonce `5` lies in the future. -/
def brokeTxn : Transaction :=
  ⟨[⟨-5, 0⟩, ⟨5, 1⟩], [⟨5, some ⟨0, [⟨-5, 0⟩, ⟨5, 1⟩], 5⟩⟩, ⟨0, none⟩]⟩

/-- A ledger state whose account `0` holds `10` at nonce `0`. -/
def fundedDb : DbTest := { newDBTest with accounts := [(0, ⟨0, 10, 0⟩)] }

/-- Like `brokeTxn` but against `fundedDb`: the balance check passes and
the signoff nonce `5` is in the future. -/
def futureTxn : Transaction :=
  ⟨[⟨-5, 0⟩, ⟨5, 1⟩], [⟨5, some ⟨0, [⟨-5, 0⟩, ⟨5, 1⟩], 5⟩⟩, ⟨0, none⟩]⟩

/-- Against `fundedDb`: the signoff nonce `-2` is in the past. -/
def replayTxn : Transaction :=
  ⟨[⟨-5, 0⟩, ⟨5, 1⟩], [⟨-2, some ⟨0, [⟨-5, 0⟩, ⟨5, 1⟩], -2⟩⟩, ⟨0, none⟩]⟩

/-- A malformed transaction: one flow, no signoffs. -/
def lopsidedTxn : Transaction := ⟨[⟨-5, 0⟩], []⟩

/-- An unsigned outflow: the signoff carries no signature. -/
def unsignedTxn : Transaction := ⟨[⟨-1, 0⟩], [⟨0, none⟩]⟩

/-- A fresh ledger whose keys `1` and `2` are both banks. -/
def bank2Db : DbTest := asBank (asBank newDBTest 1) 2

/-- The flows of the overflow transaction: two outflows of `-2^63`,
one from each bank key. -/
def hugeFlows : List Flow := [⟨-(2 ^ 63), 1⟩, ⟨-(2 ^ 63), 2⟩]

/-- The overflow transaction: both `-2^63` outflows validly signed at
nonce `0`.  Go's wrapping zero-sum check computes
`0 - (-2^63) - (-2^63) = 0` and accepts it. -/
def hugeTxn : Transaction :=
  ⟨hugeFlows, [⟨0, some ⟨1, hugeFlows, 0⟩⟩, ⟨0, some ⟨2, hugeFlows, 0⟩⟩]⟩

/-- State after pushing the overflow transaction onto `bank2Db`. -/
def hugeDb : DbTest := ((pushTransaction bank2Db hugeTxn).getD (none, bank2Db)).2

/-- A record living in accumulator shard `1`. -/
def recShard1 : DataRecord := ⟨1, 1, 10, [], "a", []⟩

/-- A record living in accumulator shard `2`. -/
def recShard2 : DataRecord := ⟨2, 1, 11, [], "b", []⟩

/-- Accumulator after inserting `recShard2` into a fresh `Db`. -/
def accOnly2 : AccDb := ((accInsert (newAccDb 1) recShard2).getD (none, newAccDb 1)).2

/-- `accOnly2` after additionally inserting `recShard1`. -/
def accBoth : AccDb := ((accInsert accOnly2 recShard1).getD (none, accOnly2)).2

/-- Accumulator after inserting `recShard1` into a fresh `Db` (run A of
the C7 comparison: shard `1` holds exactly `recShard1`). -/
def accOnly1 : AccDb := ((accInsert (newAccDb 1) recShard1).getD (none, newAccDb 1)).2

/-- Run B of the C7 comparison: the same insert into shard `1`,
followed by an insert into shard `2`; shard `1` still holds exactly
`recShard1`. -/
def accRunB : AccDb := ((accInsert accOnly1 recShard2).getD (none, accOnly1)).2

/-- A record with the zero `Id`. -/
def zeroIdRec : DataRecord := ⟨1, 0, 0, [], "z", []⟩

/-- Accumulator after inserting `zeroIdRec`. -/
def accZeroId : AccDb := ((accInsert (newAccDb 1) zeroIdRec).getD (none, newAccDb 1)).2

/-- The semantic view of an account table at a key: the stored account,
or the zero account that every reader of the table materializes for an
absent key. -/
def acctView (m : List (Nat × Account)) (k : Nat) : Account :=
  (alookup m k).getD ⟨k, 0, 0⟩

/-- Total amount that a flow list adds to the account of key `k`. -/
def dAmt (k : Nat) : List Flow → Int
  | [] => 0
  | f :: fs => (if f.publicKey = k then f.amount else 0) + dAmt k fs

/-- Number of outflows of key `k` in a flow list (the nonce delta). -/
def dNon (k : Nat) : List Flow → Int
  | [] => 0
  | f :: fs => (if f.publicKey = k ∧ f.amount < 0 then 1 else 0) + dNon k fs

/-- The specification's global invariant sum (`Σ Accounts.Amount == 0`)
read in exact integer arithmetic — the claim's reading, to be compared
with `sumAmounts`, the wrapping `int64` total the code computes. -/
def specSumAmounts (m : List (Nat × Account)) : Int :=
  m.foldl (fun t kv => t + kv.2.amount) 0

/-- The ledger states reachable from a fresh ledger by any sequence of
the mutating operations (`PushTransaction`, `PopReceipt`,
`PushReceipt`, `GotoReceipt`, `AsBank`).  An operation that panics or
diverges produces no state. -/
inductive ReachableD : DbTest → Prop where
  | base : ReachableD newDBTest
  | push (db : DbTest) (t : Transaction) (e : Option Err) (db' : DbTest) :
      ReachableD db → pushTransaction db t = some (e, db') → ReachableD db'
  | pop (db : DbTest) (b : Bool) (db' : DbTest) :
      ReachableD db → popReceipt db = some (b, db') → ReachableD db'
  | pushR (db : DbTest) (i : Int) (e : Option Err) (db' : DbTest) :
      ReachableD db → pushReceipt db i = some (e, db') → ReachableD db'
  | goto (db : DbTest) (r : Receipt) (b : Bool) (db' : DbTest) :
      ReachableD db → gotoReceipt db r = some (b, db') → ReachableD db'
  | bank (db : DbTest) (k : Nat) : ReachableD db → ReachableD (asBank db k)

/-! ## Theorems -/

/-- C1 (code bug): on a fresh ledger, push the empty transaction, pop
back to genesis, and navigate to the pushed receipt with
`GotoReceipt`.  The cursor ends exactly at the target, yet the function
returns `false`: its final comparison is against `there` (the common
ancestor reached while collecting the replay stack) instead of the
target.  The specification says it returns `true` exactly when
`Current` ends at `target`. -/
theorem gotoReceipt_reaches_target_but_returns_false :
    (gotoReceipt poppedDb pushedTarget).map Prod.fst = some false ∧
      (gotoReceipt poppedDb pushedTarget).map (fun p => (This p.2).this) =
        some pushedTarget.this := by
  exact ⟨rfl, rfl⟩

/-- C6 (code bug): on a fresh ledger the current receipt has no
children, so `PushReceipt(0)` is out of range and the specification
requires the `NotFound` error; the Go bound check `len(redos) < i`
lets `i = len(redos)` through to the out-of-range index `redos[i]`,
a runtime panic (no result). -/
theorem pushReceipt_at_child_count_panics :
    pushReceipt newDBTest 0 = none ∧ (This newDBTest).next = [] := by
  exact ⟨rfl, rfl⟩

/-- C10 (code bug): `Transaction.Verify` on a transaction with
equal-length flows and signoffs whose single (negative) flow carries no
signature dereferences the nil signature pointer and panics (no
result), instead of returning `false`. -/
theorem verify_nil_signature_panics :
    Transaction.Verify unsignedTxn = none ∧
      unsignedTxn.flows.length = unsignedTxn.signoffs.length := by
  exact ⟨rfl, rfl⟩

/-- C7 (code bug): the per-shard checksum is not a function of the
shard's records.  Run A inserts `recShard1` into shard `1` of a fresh
accumulator; run B does the same and then inserts a record into shard
`2`.  Shard `1` stores identical records after both runs, but its
checksums differ, because every shard's `State` entry aliases the one
shared `ZeroPoint` allocation. -/
theorem checksum_depends_on_other_shards :
    alookup accOnly1.data 1 = alookup accRunB.data 1 ∧
      accChecksum accOnly1 1 ≠ accChecksum accRunB 1 := by
  exact ⟨rfl, by decide⟩

/-- C8 (code bug): inserting a record of shard `1` changes the checksum
of the distinct shard `2` while leaving shard `2`'s records untouched:
both shards' `State` entries point at the single shared `ZeroPoint`
allocation, so the shards do not own independent points. -/
theorem insert_changes_other_shard_checksum :
    accChecksum accOnly2 2 ≠ accChecksum accBoth 2 ∧
      alookup accOnly2.data 2 = alookup accBoth.data 2 := by
  exact ⟨by decide, rfl⟩

/-- C9 (counterexample): inserting a record whose `Id` is zero into a
fresh accumulator succeeds and stores it under `Id = 0`; no fresh
`Id = 1` is assigned, contrary to the claimed `++HighestId`
behaviour (no such logic exists in `Db.Insert`). -/
theorem insert_zero_id_not_reassigned :
    accInsert (newAccDb 1) zeroIdRec = some (none, accZeroId) ∧
      alookup ((alookup accZeroId.data 1).getD []) 0 = some zeroIdRec ∧
      alookup ((alookup accZeroId.data 1).getD []) 1 = none := by
  exact ⟨rfl, rfl, rfl⟩

/-- C3 (counterexample): pushing the mint transaction onto the fresh
bank ledger and popping it straight away returns the cursor to genesis
but does **not** restore the account table exactly: the two accounts
materialized by the push survive the pop (with zero amount and nonce),
while the table was empty before. -/
theorem push_pop_leaves_materialized_accounts :
    pushTransaction bankDb mintTxn = some (none, mintedDb) ∧
      popReceipt mintedDb = some (true, unmintedDb) ∧
      unmintedDb.current = bankDb.current ∧
      unmintedDb.accounts ≠ bankDb.accounts := by
  refine ⟨rfl, rfl, rfl, by decide⟩

/-- C4 (counterexample): a structurally valid, correctly signed,
zero-sum transaction whose single negative flow has an account nonce
(`0`) strictly below `Signoffs[0].Nonce + nonceDiff = 5`, validated
before apply on a fresh ledger.  The claim requires the result `Wait`,
but the balance check fires first and `verifyTransaction` returns
`BelowZero`. -/
theorem verify_wait_shadowed_by_belowZero :
    verifyTransaction newDBTest brokeTxn true = some (some Err.belowZero) ∧
      Err.belowZero ≠ Err.wait ∧
      (acctOf newDBTest 0).nonce < (5 : Int) + nonceDiff true := by
  exact ⟨rfl, by decide, by decide⟩

/-- C2: whenever `PushTransaction` returns a non-nil error, the entire
ledger state — account table, receipt store, cursor, bank set and
highest-chain tracking — is exactly the state before the call:
validation runs before any mutation. -/
theorem pushTransaction_error_frame (db : DbTest) (txn : Transaction) (e : Err) (db' : DbTest)
    (h : pushTransaction db txn = some (some e, db')) : db' = db := by
  unfold pushTransaction at h
  split at h
  · exact absurd h (by simp)
  · simp only [Option.some.injEq, Prod.mk.injEq] at h
    exact h.2.symm
  · simp only [] at h
    split at h
    · exact absurd h (by simp)
    · exact absurd h (by simp)
    · simp only [Option.some.injEq, Prod.mk.injEq] at h
      exact absurd h.1 (by simp)

/-- Witness for C2: pushing a malformed transaction onto the fresh
ledger errs and leaves the state equal to the fresh ledger. -/
theorem pushTransaction_error_frame_witness :
    pushTransaction newDBTest lopsidedTxn = some (some Err.malformed, newDBTest) ∧
      newDBTest = newDBTest :=
  ⟨by decide, pushTransaction_error_frame newDBTest lopsidedTxn Err.malformed newDBTest (by decide)⟩

/-- The nonce/balance loop of `verifyTransaction` ignores a prefix of
flows whose per-flow checks all pass. -/
theorem flowsLoop_append (db : DbTest) (diff : Int) (F1 : List Flow) (S1 : List Signoff)
    (R : List Flow) (S : List Signoff)
    (hlen : F1.length = S1.length)
    (hpass : ∀ p ∈ F1.zip S1, flowCheck db diff p.1 p.2 = none) :
    flowsLoop db diff (F1 ++ R) (S1 ++ S) = flowsLoop db diff R S := by
  induction F1 generalizing S1 with
  | nil =>
    cases S1 with
    | nil => rfl
    | cons s ss => simp at hlen
  | cons f fs ih =>
    cases S1 with
    | nil => simp at hlen
    | cons s ss =>
      simp only [List.cons_append, flowsLoop]
      rw [hpass (f, s) (by simp)]
      exact ih ss (by simpa using hlen) (fun p hp => hpass p (by simp [hp]))

/-- C4 (amended): for a structurally valid, correctly signed, zero-sum
transaction (zero-sum as the code's wrapping `int64` check computes
it), consider a negative-amount flow `f` with signoff `s` such
that every earlier flow passes its per-flow checks and `f` itself does
not trigger the balance check (which the code tests first).  Then
`verifyTransaction` returns `Wait` when the flow's account nonce is
below `s.Nonce + nonceDiff` and `Replay` when it is above, with
`nonceDiff = 0` before apply and `1` after. -/
theorem verifyTransaction_wait_replay (db : DbTest) (b : Bool)
    (F1 F2 : List Flow) (f : Flow) (S1 S2 : List Signoff) (s : Signoff)
    (hlen1 : F1.length = S1.length)
    (hver : Transaction.Verify ⟨F1 ++ f :: F2, S1 ++ s :: S2⟩ = some true)
    (hsum : (F1 ++ f :: F2).foldl (fun t fl => wrap64 (t - fl.amount)) 0 = 0)
    (hpass : ∀ p ∈ F1.zip S1, flowCheck db (nonceDiff b) p.1 p.2 = none)
    (hneg : f.amount < 0)
    (hnb : ¬((acctOf db f.publicKey).amount + f.amount < 0 ∧
        db.isBank.contains f.publicKey = false)) :
    ((acctOf db f.publicKey).nonce < s.nonce + nonceDiff b →
        verifyTransaction db ⟨F1 ++ f :: F2, S1 ++ s :: S2⟩ b = some (some .wait)) ∧
    ((acctOf db f.publicKey).nonce > s.nonce + nonceDiff b →
        verifyTransaction db ⟨F1 ++ f :: F2, S1 ++ s :: S2⟩ b = some (some .replay)) := by
  have hlentot : (F1 ++ f :: F2).length = (S1 ++ s :: S2).length := by
    by_contra hne
    unfold Transaction.Verify at hver
    rw [if_pos (by simpa using Ne.symm hne)] at hver
    exact absurd hver (by simp)
  have hfc : flowsLoop db (nonceDiff b) (F1 ++ f :: F2) (S1 ++ s :: S2) =
      flowsLoop db (nonceDiff b) (f :: F2) (s :: S2) :=
    flowsLoop_append db _ F1 S1 _ _ hlen1 hpass
  constructor
  · intro hcmp
    unfold verifyTransaction
    rw [if_neg (by simpa using hlentot)]
    rw [hver]
    dsimp only
    rw [if_neg (by simpa using hsum)]
    rw [hfc]
    simp only [flowsLoop]
    unfold flowCheck
    rw [if_neg (by omega)]
    dsimp only
    rw [if_neg hnb]
    rw [if_pos hcmp]
  · intro hcmp
    unfold verifyTransaction
    rw [if_neg (by simpa using hlentot)]
    rw [hver]
    dsimp only
    rw [if_neg (by simpa using hsum)]
    rw [hfc]
    simp only [flowsLoop]
    unfold flowCheck
    rw [if_neg (by omega)]
    dsimp only
    rw [if_neg hnb]
    rw [if_neg (by omega), if_pos hcmp]

/-- Witness for C4 (amended): against the funded ledger, the future
transaction yields `Wait` and the replayed one yields `Replay`. -/
theorem verifyTransaction_wait_replay_witness :
    verifyTransaction fundedDb futureTxn true = some (some Err.wait) ∧
      verifyTransaction fundedDb replayTxn true = some (some Err.replay) :=
  ⟨(verifyTransaction_wait_replay fundedDb true [] [⟨5, 1⟩] ⟨-5, 0⟩ [] [⟨0, none⟩]
        ⟨5, some ⟨0, [⟨-5, 0⟩, ⟨5, 1⟩], 5⟩⟩ rfl (by decide) (by decide) (by decide)
        (by decide) (by decide)).1 (by decide),
    (verifyTransaction_wait_replay fundedDb true [] [⟨5, 1⟩] ⟨-5, 0⟩ [] [⟨0, none⟩]
        ⟨-2, some ⟨0, [⟨-5, 0⟩, ⟨5, 1⟩], -2⟩⟩ rfl (by decide) (by decide) (by decide)
        (by decide) (by decide)).2 (by decide)⟩

/-- Looking up the key just inserted into an association list. -/
theorem alookup_ainsert_self {κ α : Type} [DecidableEq κ] (m : List (κ × α)) (k : κ) (v : α) :
    alookup (ainsert m k v) k = some v := by
  induction m with
  | nil => simp [ainsert, alookup]
  | cons kv rest ih =>
    obtain ⟨k0, v0⟩ := kv
    by_cases h : k0 = k
    · simp [ainsert, h, alookup]
    · simp [ainsert, h, alookup, ih]

/-- Inserting at one key leaves lookups of other keys unchanged. -/
theorem alookup_ainsert_ne {κ α : Type} [DecidableEq κ] (m : List (κ × α)) (k k' : κ) (v : α)
    (h : k ≠ k') : alookup (ainsert m k v) k' = alookup m k' := by
  induction m with
  | nil => simp [ainsert, alookup, h]
  | cons kv rest ih =>
    obtain ⟨k0, v0⟩ := kv
    by_cases h0 : k0 = k
    · subst h0
      simp [ainsert, alookup, h]
    · simp [ainsert, h0, alookup, ih]

/-- `aupdate` only changes the value stored at its key. -/
theorem alookup_aupdate {κ α : Type} [DecidableEq κ] (m : List (κ × α)) (k k' : κ) (g : α → α) :
    alookup (aupdate m k g) k' =
      if k' = k then (alookup m k).map g else alookup m k' := by
  induction m with
  | nil => by_cases h : k' = k <;> simp [aupdate, alookup, h]
  | cons kv rest ih =>
    obtain ⟨k0, v0⟩ := kv
    by_cases h0 : k0 = k
    · subst h0
      by_cases h1 : k0 = k'
      · subst h1
        simp [aupdate, alookup]
      · have h1' : ¬(k' = k0) := fun hh => h1 hh.symm
        simp [aupdate, alookup, h1, h1']
    · by_cases h1 : k0 = k'
      · subst h1
        have h2' : ¬(k0 = k) := h0
        simp [aupdate, alookup, h0, h2']
      · simp [aupdate, alookup, h0, h1, ih]

/-- The semantic view through an insertion. -/
theorem acctView_ainsert (m : List (Nat × Account)) (k k' : Nat) (v : Account) :
    acctView (ainsert m k v) k' = if k' = k then v else acctView m k' := by
  by_cases h : k' = k
  · subst h
    simp [acctView, alookup_ainsert_self]
  · simp [acctView, alookup_ainsert_ne m k k' v (Ne.symm h), h]

/-- Materialization stores exactly the semantic view of the key. -/
theorem alookup_ensureAcct_self (acc : List (Nat × Account)) (pk : Nat) :
    alookup (ensureAcct acc pk) pk = some (acctView acc pk) := by
  unfold ensureAcct
  cases hl : alookup acc pk with
  | none => simp [alookup_ainsert_self, acctView, hl]
  | some a => simp [hl, acctView]

/-- Materialization leaves the other keys alone. -/
theorem alookup_ensureAcct_ne (acc : List (Nat × Account)) (pk k' : Nat) (h : k' ≠ pk) :
    alookup (ensureAcct acc pk) k' = alookup acc k' := by
  unfold ensureAcct
  cases hl : alookup acc pk with
  | none => exact alookup_ainsert_ne acc pk k' _ (Ne.symm h)
  | some a => rfl

/-- After one apply step the flow's account is stored, with the amount
added and the nonce bumped for an outflow. -/
theorem alookup_applyStep_self (acc : List (Nat × Account)) (f : Flow) :
    alookup (applyStep acc f) f.publicKey =
      some { acctView acc f.publicKey with
              amount := (acctView acc f.publicKey).amount + f.amount
              nonce := if f.amount < 0 then (acctView acc f.publicKey).nonce + 1
                       else (acctView acc f.publicKey).nonce } := by
  unfold applyStep
  by_cases hneg : f.amount < 0 <;>
    simp [hneg, alookup_aupdate, alookup_ensureAcct_self acc f.publicKey]

/-- One apply step leaves the other keys alone. -/
theorem alookup_applyStep_ne (acc : List (Nat × Account)) (f : Flow) (k' : Nat)
    (h : k' ≠ f.publicKey) :
    alookup (applyStep acc f) k' = alookup acc k' := by
  unfold applyStep
  by_cases hneg : f.amount < 0 <;>
    simp [hneg, alookup_aupdate, h, alookup_ensureAcct_ne acc f.publicKey k' h]

/-- The semantic view through one apply step. -/
theorem acctView_applyStep (acc : List (Nat × Account)) (f : Flow) (k : Nat) :
    acctView (applyStep acc f) k =
      if f.publicKey = k then
        { acctView acc k with
            amount := (acctView acc k).amount + f.amount
            nonce := if f.amount < 0 then (acctView acc k).nonce + 1 else (acctView acc k).nonce }
      else acctView acc k := by
  by_cases hk : f.publicKey = k
  · subst hk
    simp [acctView, alookup_applyStep_self]
  · have hk' : k ≠ f.publicKey := fun hh => hk hh.symm
    simp [acctView, alookup_applyStep_ne acc f k hk', hk]

/-- C9 (amended): `Db.Insert` never assigns fresh ids.  If a record
with the key `(Shard, Id)` is already stored — and the shard's checksum
point is initialized, as always holds once a record of the shard is
stored — `Insert` returns the already-exists error and leaves the
accumulator (records, shard points and hence `Checksum`) exactly
unchanged; and whenever `Insert` succeeds, the record is stored under
the `Id` it arrived with (a zero id included). -/
theorem accInsert_no_fresh_id (db : AccDb) (v : DataRecord) :
    (∀ w, alookup ((alookup db.data v.shard).getD []) v.id = some w →
        (alookup db.state v.shard).isSome = true →
        accInsert db v = some (some .alreadyExists, db)) ∧
    (∀ db', accInsert db v = some (none, db') →
        alookup ((alookup db'.data v.shard).getD []) v.id = some v) := by
  constructor
  · intro w hrec hstate
    unfold accInsert
    cases hdd : alookup db.data v.shard with
    | none => rw [hdd] at hrec; simp [alookup] at hrec
    | some m =>
      cases hss : alookup db.state v.shard with
      | none => rw [hss] at hstate; simp at hstate
      | some p =>
        rw [hdd] at hrec
        simp only [Option.getD_some] at hrec
        simp [hdd, hss, hrec]
  · intro db' hsucc
    unfold accInsert at hsucc
    simp only [] at hsucc
    split at hsucc
    · simp at hsucc
    · split at hsucc
      · simp at hsucc
      · simp only [Option.some.injEq, Prod.mk.injEq] at hsucc
        rw [← hsucc.2]
        simp only [alookup_ainsert_self, Option.getD_some]

/-- Witness for C9 (amended): re-inserting `recShard1` errs and leaves
the accumulator unchanged, and the zero-id record is stored under id
`0`. -/
theorem accInsert_no_fresh_id_witness :
    accInsert accOnly1 recShard1 = some (some AccErr.alreadyExists, accOnly1) ∧
      alookup ((alookup accZeroId.data zeroIdRec.shard).getD []) zeroIdRec.id = some zeroIdRec :=
  ⟨(accInsert_no_fresh_id accOnly1 recShard1).1 recShard1 (by rfl) (by rfl),
    (accInsert_no_fresh_id (newAccDb 1) zeroIdRec).2 accZeroId (by rfl)⟩

/-- The semantic view through the whole apply loop: every account gains
its flow total in amount and its outflow count in nonce. -/
theorem acctView_applyLoop (fs : List Flow) (acc : List (Nat × Account)) (k : Nat) :
    (acctView (applyLoop acc fs) k).publicKey = (acctView acc k).publicKey ∧
    (acctView (applyLoop acc fs) k).amount = (acctView acc k).amount + dAmt k fs ∧
    (acctView (applyLoop acc fs) k).nonce = (acctView acc k).nonce + dNon k fs := by
  induction fs generalizing acc with
  | nil => simp [applyLoop, dAmt, dNon]
  | cons f fs ih =>
    have hstep := acctView_applyStep acc f k
    obtain ⟨h1, h2, h3⟩ := ih (applyStep acc f)
    refine ⟨?_, ?_, ?_⟩
    · rw [show applyLoop acc (f :: fs) = applyLoop (applyStep acc f) fs from rfl]
      rw [h1, hstep]
      by_cases hk : f.publicKey = k <;> simp [hk]
    · rw [show applyLoop acc (f :: fs) = applyLoop (applyStep acc f) fs from rfl]
      rw [h2, hstep]
      simp only [dAmt]
      by_cases hk : f.publicKey = k
      · simp [hk]
        ring
      · simp [hk]
    · rw [show applyLoop acc (f :: fs) = applyLoop (applyStep acc f) fs from rfl]
      rw [h3, hstep]
      simp only [dNon]
      by_cases hk : f.publicKey = k
      · by_cases hneg : f.amount < 0
        · simp [hk, hneg]
          ring
        · simp [hk, hneg]
      · simp [hk, fun hh : f.publicKey = k ∧ f.amount < 0 => hk hh.1]

/-- Presence of a key after one apply step. -/
theorem isSome_applyStep (acc : List (Nat × Account)) (f : Flow) (k : Nat) :
    (alookup (applyStep acc f) k).isSome =
      (decide (k = f.publicKey) || (alookup acc k).isSome) := by
  by_cases hk : k = f.publicKey
  · subst hk
    simp [alookup_applyStep_self]
  · simp [alookup_applyStep_ne acc f k hk, hk]

/-- After the apply loop, every flow's account is stored. -/
theorem isSome_applyLoop_mem (fs : List Flow) (acc : List (Nat × Account)) (f : Flow)
    (hf : f ∈ fs) : (alookup (applyLoop acc fs) f.publicKey).isSome = true := by
  have mono : ∀ (fs' : List Flow) (m : List (Nat × Account)) (k : Nat),
      (alookup m k).isSome = true → (alookup (applyLoop m fs') k).isSome = true := by
    intro fs'
    induction fs' with
    | nil => intro m k h; simpa [applyLoop] using h
    | cons x xs ihx =>
      intro m k h
      rw [show applyLoop m (x :: xs) = applyLoop (applyStep m x) xs from rfl]
      exact ihx _ _ (by rw [isSome_applyStep]; simp [h])
  induction fs generalizing acc with
  | nil => cases hf
  | cons g gs ih =>
    rw [show applyLoop acc (g :: gs) = applyLoop (applyStep acc g) gs from rfl]
    rcases List.mem_cons.1 hf with h | h
    · subst h
      exact mono gs _ _ (by simp [alookup_applyStep_self])
    · exact ih _ h

/-- The materialization loop of `PushTransaction` does not change the
semantic view of the account table. -/
theorem acctView_matLoop (fs : List Flow) (acc : List (Nat × Account)) (k : Nat) :
    acctView (matLoop acc fs) k = acctView acc k := by
  induction fs generalizing acc with
  | nil => rfl
  | cons f fs ih =>
    by_cases hpos : f.amount > 0
    · rw [show matLoop acc (f :: fs) = matLoop acc fs by simp [matLoop, hpos]]
      exact ih acc
    · rw [show matLoop acc (f :: fs) =
          matLoop (ainsert acc f.publicKey ((alookup acc f.publicKey).getD ⟨f.publicKey, 0, 0⟩)) fs by
        simp [matLoop, hpos]]
      rw [ih]
      rw [acctView_ainsert]
      by_cases hk : k = f.publicKey
      · subst hk
        simp [acctView]
      · simp [hk]

/-- The undo loop of `PopReceipt` succeeds when every flow's account is
stored, and subtracts every account's flow total and outflow count. -/
theorem undoLoop_view (fs : List Flow) (acc : List (Nat × Account))
    (hpres : ∀ f ∈ fs, (alookup acc f.publicKey).isSome = true) :
    ∃ acc', undoLoop acc fs = some acc' ∧ ∀ k,
      (acctView acc' k).publicKey = (acctView acc k).publicKey ∧
      (acctView acc' k).amount = (acctView acc k).amount - dAmt k fs ∧
      (acctView acc' k).nonce = (acctView acc k).nonce - dNon k fs := by
  induction fs generalizing acc with
  | nil => exact ⟨acc, rfl, by simp [dAmt, dNon]⟩
  | cons f fs ih =>
    have hf : (alookup acc f.publicKey).isSome = true := hpres f (by simp)
    obtain ⟨a, ha⟩ := Option.isSome_iff_exists.1 hf
    have hav : acctView acc f.publicKey = a := by simp [acctView, ha]
    have hpres' : ∀ g ∈ fs,
        (alookup (ainsert acc f.publicKey
          { a with amount := a.amount - f.amount
                   nonce := if f.amount < 0 then a.nonce - 1 else a.nonce }) g.publicKey).isSome = true := by
      intro g hg
      by_cases hk : g.publicKey = f.publicKey
      · rw [hk, alookup_ainsert_self]; rfl
      · rw [alookup_ainsert_ne acc f.publicKey g.publicKey _ (Ne.symm hk)]
        exact hpres g (by simp [hg])
    obtain ⟨acc', hrun, hview⟩ := ih _ hpres'
    refine ⟨acc', ?_, ?_⟩
    · rw [show undoLoop acc (f :: fs) = undoLoop (ainsert acc f.publicKey
          { a with amount := a.amount - f.amount
                   nonce := if f.amount < 0 then a.nonce - 1 else a.nonce }) fs by
        simp [undoLoop, ha]]
      exact hrun
    · intro k
      obtain ⟨h1, h2, h3⟩ := hview k
      have hin := acctView_ainsert acc f.publicKey k
        { a with amount := a.amount - f.amount
                 nonce := if f.amount < 0 then a.nonce - 1 else a.nonce }
      by_cases hk : k = f.publicKey
      · subst hk
        rw [hin, if_pos rfl] at h1 h2 h3
        dsimp only at h1 h2 h3
        have hdA : dAmt f.publicKey (f :: fs) = f.amount + dAmt f.publicKey fs := by
          simp [dAmt]
        have hdN : dNon f.publicKey (f :: fs) =
            (if f.amount < 0 then 1 else 0) + dNon f.publicKey fs := by
          simp [dNon]
        refine ⟨?_, ?_, ?_⟩
        · rw [h1, hav]
        · rw [h2, hav, hdA]
          omega
        · by_cases hneg : f.amount < 0
          · rw [h3, hav, hdN, if_pos hneg, if_pos hneg]
            omega
          · rw [h3, hav, hdN, if_neg hneg, if_neg hneg]
            omega
      · rw [hin, if_neg hk] at h1 h2 h3
        have hne : ¬(f.publicKey = k) := fun hh => hk hh.symm
        have hdA : dAmt k (f :: fs) = dAmt k fs := by simp [dAmt, hne]
        have hdN : dNon k (f :: fs) = dNon k fs := by simp [dNon, hne]
        exact ⟨h1, by rw [h2, hdA], by rw [h3, hdN]⟩

/-- A formal hash never equals the pointer it hashes over: a receipt
hash differs from the previous-pointer inside its header. -/
theorem hashOf_ne : ∀ (p : HashPointer) (t : Transaction) (c : Int),
    HashPointer.hashOf t c p ≠ p := by
  intro p
  induction p with
  | empty => intro t c h; exact HashPointer.noConfusion h
  | hashOf t' c' p' ih =>
    intro t c h
    injection h with h1 h2 h3
    exact ih t' c' h3

/-- Accounts are determined by their three fields. -/
theorem account_fields_eq (a b : Account) (h1 : a.publicKey = b.publicKey)
    (h2 : a.amount = b.amount) (h3 : a.nonce = b.nonce) : a = b := by
  cases a; cases b; simp_all

/-- C3 (amended): when `PushTransaction` accepts a transaction and
`PopReceipt` immediately succeeds afterwards, the cursor returns exactly
to the pre-push receipt and the account table returns to its pre-push
*semantic* values: every key holds its old amount and nonce, with an
absent account equal to the materialized zero account.  (Exact equality
of the table fails: accounts materialized by the push survive the pop
with zero values — see the counterexample.)  The hypothesis states that
the cursor dereferences to a receipt stored under its own hash, which
holds in every reachable state. -/
theorem pushPop_restores (db : DbTest) (txn : Transaction) (db1 db2 : DbTest)
    (hcur : ∃ pr, alookup db.receipts db.current = some pr ∧ pr.this = db.current)
    (hp : pushTransaction db txn = some (none, db1))
    (hq : popReceipt db1 = some (true, db2)) :
    db2.current = db.current ∧ ∀ k, acctView db2.accounts k = acctView db.accounts k := by
  obtain ⟨pr, hpr, hprthis⟩ := hcur
  have hThisdb : This db = pr := by simp [This, hpr]
  unfold pushTransaction at hp
  rw [hThisdb] at hp
  split at hp
  · exact absurd hp (by simp)
  · exact absurd hp (by simp)
  · simp only [] at hp
    split at hp
    · exact absurd hp (by simp)
    · exact absurd hp (by simp)
    · simp only [Option.some.injEq, Prod.mk.injEq] at hp
      have hdb1 := hp.2
      have hne : Hashed.ptr ⟨txn, pr.hashed.chainLength + 1, pr.this⟩ ≠ pr.this :=
        hashOf_ne pr.this txn (pr.hashed.chainLength + 1)
      have hrs1 : alookup (ainsert db.receipts
          (Hashed.ptr ⟨txn, pr.hashed.chainLength + 1, pr.this⟩)
          ⟨⟨txn, pr.hashed.chainLength + 1, pr.this⟩,
            Hashed.ptr ⟨txn, pr.hashed.chainLength + 1, pr.this⟩, []⟩)
          pr.this = some pr := by
        rw [alookup_ainsert_ne _ _ _ _ hne, hprthis]
        exact hpr
      rw [hrs1] at hdb1
      have hacc : db1.accounts = applyLoop (matLoop db.accounts txn.flows) txn.flows := by
        rw [← hdb1]
        split
        · rfl
        · split <;> rfl
      have hcur1 : db1.current = Hashed.ptr ⟨txn, pr.hashed.chainLength + 1, pr.this⟩ := by
        rw [← hdb1]
        split
        · rfl
        · split <;> rfl
      have hrec1 : db1.receipts = ainsert (ainsert db.receipts
          (Hashed.ptr ⟨txn, pr.hashed.chainLength + 1, pr.this⟩)
          ⟨⟨txn, pr.hashed.chainLength + 1, pr.this⟩,
            Hashed.ptr ⟨txn, pr.hashed.chainLength + 1, pr.this⟩, []⟩)
          pr.this
          { pr with next := pr.next ++ [Hashed.ptr ⟨txn, pr.hashed.chainLength + 1, pr.this⟩] } := by
        rw [← hdb1]
        split
        · rfl
        · split <;> rfl
      have hlookr : alookup db1.receipts
          (Hashed.ptr ⟨txn, pr.hashed.chainLength + 1, pr.this⟩) =
          some ⟨⟨txn, pr.hashed.chainLength + 1, pr.this⟩,
            Hashed.ptr ⟨txn, pr.hashed.chainLength + 1, pr.this⟩, []⟩ := by
        rw [hrec1, alookup_ainsert_ne _ _ _ _ (Ne.symm hne), alookup_ainsert_self]
      have hlookprev : alookup db1.receipts pr.this =
          some { pr with next := pr.next ++ [Hashed.ptr ⟨txn, pr.hashed.chainLength + 1, pr.this⟩] } := by
        rw [hrec1, alookup_ainsert_self]
      have hThis1 : This db1 =
          ⟨⟨txn, pr.hashed.chainLength + 1, pr.this⟩,
            Hashed.ptr ⟨txn, pr.hashed.chainLength + 1, pr.this⟩, []⟩ := by
        unfold This
        rw [hcur1, hlookr]
        rfl
      unfold popReceipt at hq
      rw [hThis1] at hq
      dsimp only at hq
      split at hq
      · exact absurd hq (by simp)
      · split at hq
        · exact absurd hq (by simp)
        · rename_i parent hpar
          split at hq
          · exact absurd hq (by simp)
          · rename_i accu hund
            split at hq
            · exact absurd hq (by simp)
            · exact absurd hq (by simp)
            · have hpres : ∀ f ∈ txn.flows, (alookup db1.accounts f.publicKey).isSome = true := by
                intro f hf
                rw [hacc]
                exact isSome_applyLoop_mem txn.flows _ f hf
              obtain ⟨acc2, hrun, hview⟩ := undoLoop_view txn.flows db1.accounts hpres
              have haccu : accu = acc2 := by
                have := hrun.symm.trans hund
                exact (Option.some.injEq _ _ ▸ this).symm
              rw [haccu] at hq
              simp only [Option.some.injEq, Prod.mk.injEq, true_and] at hq
              refine ⟨by rw [← hq]; exact hprthis, ?_⟩
              intro k
              obtain ⟨hv1, hv2, hv3⟩ := hview k
              obtain ⟨ha1, ha2, ha3⟩ := acctView_applyLoop txn.flows (matLoop db.accounts txn.flows) k
              have hm := acctView_matLoop txn.flows db.accounts k
              rw [hacc] at hv1 hv2 hv3
              rw [hm] at ha1 ha2 ha3
              rw [← hq]
              show acctView acc2 k = acctView db.accounts k
              apply account_fields_eq
              · rw [hv1, ha1]
              · rw [hv2, ha2]
                omega
              · rw [hv3, ha3]
                omega

/-- Witness for C3 (amended): push the empty transaction on a fresh
ledger, pop it, and both the cursor and the (empty) account table are
restored. -/
theorem pushPop_restores_witness :
    poppedDb.current = newDBTest.current ∧
      acctView poppedDb.accounts 0 = acctView newDBTest.accounts 0 :=
  ⟨(pushPop_restores newDBTest emptyTxn pushedDb poppedDb
      ⟨genesisReceipt, rfl, rfl⟩ rfl rfl).1,
    (pushPop_restores newDBTest emptyTxn pushedDb poppedDb
      ⟨genesisReceipt, rfl, rfl⟩ rfl rfl).2 0⟩

/-- A nil result of `verifyTransaction` implies its final global check
passed: the account amounts sum to zero. -/
theorem verify_ok_sum (db : DbTest) (txn : Transaction) (b : Bool)
    (h : verifyTransaction db txn b = some none) : sumAmounts db.accounts = 0 := by
  unfold verifyTransaction at h
  split at h
  · simp at h
  · split at h
    · simp at h
    · simp at h
    · split at h
      · simp at h
      · split at h
        · simp at h
        · split at h
          · simp at h
          · rename_i hs
            omega

/-- Any state produced by `PushTransaction` has zero account sum (its
post-apply self-check enforces it), or is the unchanged input state. -/
theorem pushTransaction_sum (db : DbTest) (t : Transaction) (e : Option Err) (db' : DbTest)
    (h : pushTransaction db t = some (e, db')) :
    sumAmounts db'.accounts = 0 ∨ db' = db := by
  unfold pushTransaction at h
  split at h
  · simp at h
  · right
    simp only [Option.some.injEq, Prod.mk.injEq] at h
    exact h.2.symm
  · simp only [] at h
    split at h
    · simp at h
    · simp at h
    · left
      rename_i hver
      simp only [Option.some.injEq, Prod.mk.injEq] at h
      rw [← h.2]
      exact verify_ok_sum _ _ _ hver

/-- Any state produced by `PopReceipt` has zero account sum (its
self-check enforces it), or is the unchanged input state. -/
theorem popReceipt_sum (db : DbTest) (b : Bool) (db' : DbTest)
    (h : popReceipt db = some (b, db')) :
    sumAmounts db'.accounts = 0 ∨ db' = db := by
  unfold popReceipt at h
  split at h
  · right
    simp only [Option.some.injEq, Prod.mk.injEq] at h
    exact h.2.symm
  · simp only [] at h
    split at h
    · right
      simp only [Option.some.injEq, Prod.mk.injEq] at h
      exact h.2.symm
    · split at h
      · simp at h
      · split at h
        · simp at h
        · simp at h
        · left
          rename_i hver
          simp only [Option.some.injEq, Prod.mk.injEq] at h
          rw [← h.2]
          exact verify_ok_sum _ _ _ hver

/-- Any state produced by `PushReceipt` has zero account sum, or is the
unchanged input state. -/
theorem pushReceipt_sum (db : DbTest) (i : Int) (e : Option Err) (db' : DbTest)
    (h : pushReceipt db i = some (e, db')) :
    sumAmounts db'.accounts = 0 ∨ db' = db := by
  unfold pushReceipt at h
  split at h
  · simp at h
  · simp only [] at h
    split at h
    · right
      simp only [Option.some.injEq, Prod.mk.injEq] at h
      exact h.2.symm
    · split at h
      · simp at h
      · split at h
        · simp at h
        · split at h
          · simp at h
          · simp at h
          · left
            rename_i hver
            simp only [Option.some.injEq, Prod.mk.injEq] at h
            rw [← h.2]
            exact verify_ok_sum _ _ _ hver

/-- Phase 1 of `GotoReceipt` preserves the zero-sum alternative. -/
theorem phase1_sum (fuel : Nat) : ∀ (db : DbTest) (rcpt : Receipt) (db1 : DbTest),
    phase1 fuel db rcpt = some db1 → sumAmounts db1.accounts = 0 ∨ db1 = db := by
  induction fuel with
  | zero =>
    intro db rcpt db1 h
    unfold phase1 at h
    split at h
    · simp at h
    · right
      simpa using h.symm
  | succ n ih =>
    intro db rcpt db1 h
    unfold phase1 at h
    split at h
    · split at h
      · simp at h
      · rename_i hpop
        rcases ih _ rcpt db1 h with hs | he
        · left; exact hs
        · subst he
          exact popReceipt_sum db _ _ hpop
    · right
      simpa using h.symm

/-- Phase 3 of `GotoReceipt` preserves the zero-sum alternative. -/
theorem phase3_sum (fuel : Nat) : ∀ (db : DbTest) (there : Receipt) (st : List Nat)
    (db3 : DbTest) (there3 : Receipt) (st3 : List Nat),
    phase3 fuel db there st = some (db3, there3, st3) →
    sumAmounts db3.accounts = 0 ∨ db3 = db := by
  induction fuel with
  | zero =>
    intro db there st db3 there3 st3 h
    unfold phase3 at h
    split at h
    · simp at h
    · right
      simp only [Option.some.injEq, Prod.mk.injEq] at h
      exact h.1.symm
  | succ n ih =>
    intro db there st db3 there3 st3 h
    unfold phase3 at h
    split at h
    · split at h
      · simp at h
      · split at h
        · simp at h
        · rename_i hpop
          rcases ih _ _ _ _ _ _ h with hs | he
          · left; exact hs
          · subst he
            exact popReceipt_sum db _ _ hpop
    · right
      simp only [Option.some.injEq, Prod.mk.injEq] at h
      exact h.1.symm

/-- Phase 4 of `GotoReceipt` preserves the zero-sum alternative. -/
theorem phase4_sum (fuel : Nat) : ∀ (db : DbTest) (st : List Nat) (db4 : DbTest),
    phase4 fuel db st = some db4 → sumAmounts db4.accounts = 0 ∨ db4 = db := by
  induction fuel with
  | zero =>
    intro db st db4 h
    cases st with
    | nil =>
      right
      simpa [phase4] using h.symm
    | cons a l =>
      simp [phase4] at h
  | succ n ih =>
    intro db st db4 h
    cases st with
    | nil =>
      right
      simpa [phase4] using h.symm
    | cons idx l =>
      unfold phase4 at h
      split at h
      · simp at h
      · rename_i hpr
        rcases ih _ _ _ h with hs | he
        · left; exact hs
        · subst he
          exact pushReceipt_sum db _ _ _ hpr

/-- Any state produced by `GotoReceipt` has zero account sum or is the
unchanged input state. -/
theorem gotoReceipt_sum (db : DbTest) (r : Receipt) (b : Bool) (db' : DbTest)
    (h : gotoReceipt db r = some (b, db')) :
    sumAmounts db'.accounts = 0 ∨ db' = db := by
  unfold gotoReceipt at h
  simp only [] at h
  split at h
  · simp at h
  · rename_i db1 h1
    split at h
    · simp only [Option.some.injEq, Prod.mk.injEq] at h
      rcases phase1_sum _ db r db1 h1 with hs | he
      · left
        rw [← h.2]
        exact hs
      · right
        rw [← h.2, he]
    · split at h
      · simp at h
      · split at h
        · simp at h
        · split at h
          · simp at h
          · rename_i h3
            split at h
            · simp at h
            · rename_i db4 h4
              simp only [Option.some.injEq, Prod.mk.injEq] at h
              rw [← h.2]
              rcases phase4_sum _ _ _ _ h4 with hs4 | he4
              · left; exact hs4
              · subst he4
                rcases phase3_sum _ _ _ _ _ _ _ h3 with hs3 | he3
                · left; exact hs3
                · subst he3
                  rcases phase1_sum _ db r _ h1 with hs1 | he1
                  · left; exact hs1
                  · right; exact he1

/-- C5 (counterexample): the exact account sum of a reachable state can
be nonzero.  Marking keys `1` and `2` as banks and pushing a signed
transaction with two `-2^63` outflows passes every check — both of the
code's wrapping `int64` totals come out zero — and yields a reachable
state whose amounts sum exactly to `-2^64`. -/
theorem reachable_state_with_nonzero_exact_sum :
    ReachableD hugeDb ∧ specSumAmounts hugeDb.accounts = -(2 ^ 64) ∧
      specSumAmounts hugeDb.accounts ≠ 0 :=
  ⟨ReachableD.push bank2Db hugeTxn none hugeDb
      (ReachableD.bank (asBank newDBTest 1) 2 (ReachableD.bank newDBTest 1 ReachableD.base))
      (by decide),
    by decide, by decide⟩

/-- C5 (amended): in every ledger state reachable from a fresh ledger
by any sequence of `PushTransaction`, `PopReceipt`, `PushReceipt`,
`GotoReceipt` and `AsBank` operations, the amounts of all accounts
(banks included, with their negative balances) sum to zero in the
wrapping `int64` arithmetic of the code's own self-check, i.e. the
exact sum is congruent to `0` modulo `2^64`.  The exact integer sum
itself can be a nonzero multiple of `2^64` (see the counterexample). -/
theorem reachable_sum_zero (db : DbTest) (h : ReachableD db) :
    sumAmounts db.accounts = 0 := by
  induction h with
  | base => rfl
  | push db t e db2 hr hstep ih =>
    rcases pushTransaction_sum db t e db2 hstep with hs | he
    · exact hs
    · rw [he]; exact ih
  | pop db b db2 hr hstep ih =>
    rcases popReceipt_sum db b db2 hstep with hs | he
    · exact hs
    · rw [he]; exact ih
  | pushR db i e db2 hr hstep ih =>
    rcases pushReceipt_sum db i e db2 hstep with hs | he
    · exact hs
    · rw [he]; exact ih
  | goto db r b db2 hr hstep ih =>
    rcases gotoReceipt_sum db r b db2 hstep with hs | he
    · exact hs
    · rw [he]; exact ih
  | bank db k hr ih =>
    simpa [asBank] using ih

/-- Witness for C5: the fresh ledger is reachable and its (empty)
account table sums to zero. -/
theorem reachable_sum_zero_witness : sumAmounts newDBTest.accounts = 0 :=
  reachable_sum_zero newDBTest ReachableD.base

end BC
